import Mathlib

/-
Verification development for the CSV-to-PDF batch form-filling pipeline
(`src/src/App.tsx` and `src/unnamed/part_000`).

The program iterates spreadsheet rows, fills PDF form templates per a static
column-to-field mapping plus optional per-descriptor custom logic, and collects
the filled documents into a zip archive with derived file names.

Shallow-embedding conventions:
  * A PDF form is modelled by a `FormSchema` (which field names exist as text
    fields resp. checkboxes; pdf-lib's `getTextField` / `getCheckBox` throw
    exactly when the name is not of that kind) and a `FormState` (current field
    contents).  Filling a document is modelled as the list of primitive set
    operations (`SetOp`) the code performs, in execution order; the filled
    document content is the result of applying those operations to the
    template-default state.  Serialization to bytes is an external collaborator
    (pdf-lib `save`) and is not modelled; document contents are compared at the
    level of the performed operations / resulting field states.
  * A CSV row is an association list from column name to string value; an
    absent key models JavaScript `undefined` (and `null`).
  * Values read from the ambient environment (the wall clock via `new Date()`
    and the `Intl` formatters) are modelled by an explicit `Env` parameter.
  * JavaScript number-to-string interpolation (for example in a template
    literal) is modelled by `natStr`, the usual most-significant-digit-first
    decimal rendering.
-/

namespace PdfFill

/-- One primitive mutation performed on a PDF form: pdf-lib
`textField.setText`, `checkbox.check`, `checkbox.uncheck`. -/
inductive SetOp
  | setText (field : String) (value : String)
  | check (field : String)
  | uncheck (field : String)
deriving DecidableEq, Repr

/-- Name of the field an operation writes to. -/
def SetOp.fieldName : SetOp → String
  | .setText f _ => f
  | .check f => f
  | .uncheck f => f

/-- Which names exist in a loaded PDF form as text fields resp. checkboxes
(the form's static shape, determined by the template file). -/
structure FormSchema where
  textFields : List String
  checkBoxFields : List String
deriving DecidableEq

/-- The pdf-lib call `form.getTextField n` succeeds exactly when `n` is a text
field of the form. -/
def FormSchema.isText (s : FormSchema) (n : String) : Bool :=
  s.textFields.contains n

/-- The pdf-lib call `form.getCheckBox n` succeeds exactly when `n` is a
checkbox of the form. -/
def FormSchema.isCheckBox (s : FormSchema) (n : String) : Bool :=
  s.checkBoxFields.contains n

/-- Current contents of the form fields; `none` means the field still holds
whatever the template default is (it was never written). -/
structure FormState where
  text : String → Option String
  checked : String → Option Bool

/-- Effect of one primitive operation on the form contents. -/
def applyOp (st : FormState) : SetOp → FormState
  | .setText f v => { st with text := fun n => if n = f then some v else st.text n }
  | .check f => { st with checked := fun n => if n = f then some true else st.checked n }
  | .uncheck f => { st with checked := fun n => if n = f then some false else st.checked n }

/-- Effect of a sequence of operations, applied left to right (execution
order). -/
def applyOps (st : FormState) (ops : List SetOp) : FormState :=
  ops.foldl applyOp st

/-- One CSV row: association list from column name to cell value, as produced
by Papa.parse with `header: true`. -/
abbrev Row := List (String × String)

/-- JavaScript property access `rowData[column]`: `none` models `undefined`. -/
def rowGet (row : Row) (column : String) : Option String :=
  row.lookup column

/-- JavaScript truthiness of a possibly-absent string (`undefined`, `null` and
`""` are falsy). -/
def truthy : Option String → Bool
  | none => false
  | some v => v != ""

/-- The right-hand side of one field-mapping entry: a single PDF field name or
an array of them (`string | string[]` in the source). -/
inductive FieldTarget
  | one (name : String)
  | many (names : List String)
deriving DecidableEq

/-- Normalization `Array.isArray(x) ? x : [x]` done by the fill loop. -/
def FieldTarget.toList : FieldTarget → List String
  | .one n => [n]
  | .many ns => ns

/-- A field mapping table, in declaration order (`Object.entries` preserves
string-key insertion order). -/
abbrev Mapping := List (String × FieldTarget)

/-- Character-wise lower-casing, modelling JavaScript `toLowerCase()` (which
agrees with per-character ASCII lower-casing on all the strings compared
here). -/
def toLowerStr (s : String) : String :=
  String.mk (s.data.map Char.toLower)

/-- Checkbox interpretation of a cell value (`App.tsx` lines 174-177):
checked iff the value lower-cases to "true" or "yes", or equals "1". -/
def isCheckedValue (v : String) : Bool :=
  toLowerStr v == "true" || toLowerStr v == "yes" || v == "1"

/-- Operations performed for one target field name and one non-empty value
(the nested try/catch in `App.tsx` lines 164-194): try the name as a text
field; if that throws, try it as a checkbox; if that throws too, only warn. -/
def setFieldOps (schema : FormSchema) (name v : String) : List SetOp :=
  if schema.isText name then [.setText name v]
  else if schema.isCheckBox name then
    if isCheckedValue v then [.check name] else [.uncheck name]
  else []

/-- Operations for a list of target field names (`fieldNamesArray.forEach`). -/
def setEachField (schema : FormSchema) (v : String) : List String → List SetOp
  | [] => []
  | n :: ns => setFieldOps schema n v ++ setEachField schema v ns

/-- Operations performed for one `(csvColumn, pdfFieldNames)` mapping pair:
skipped entirely when the value is absent, null, or the empty string
(`App.tsx` line 162). -/
def pairOps (schema : FormSchema) (row : Row) (p : String × FieldTarget) : List SetOp :=
  match rowGet row p.1 with
  | none => []
  | some v => if v = "" then [] else setEachField schema v p.2.toList

/-- Operations of the whole static-mapping fill loop
(`Object.entries(fieldMapping).forEach`). -/
def fillMappingOps (schema : FormSchema) (row : Row) : Mapping → List SetOp
  | [] => []
  | p :: ps => pairOps schema row p ++ fillMappingOps schema row ps

/-- Ambient-environment inputs consumed by the custom logic closures: the
wall-clock date formatted the ways the code formats it, and the
`Intl.NumberFormat` two-fraction-digit formatter. -/
structure Env where
  sigDay : String
  sigMonth : String
  sigYear : String
  sigMDY : String
  fmtInterest : String → String

/-- Fuel-driven helper for decimal rendering; the fuel is always strictly
larger than the number, so the first branch is never the one that matters. -/
def natCharsCore : Nat → Nat → List Char
  | 0, _ => []
  | fuel + 1, n =>
    if n < 10 then [Nat.digitChar n]
    else natCharsCore fuel (n / 10) ++ [Nat.digitChar (n % 10)]

/-- Decimal digits of a natural number, most significant first; models
JavaScript number-to-string conversion in template literals. -/
def natChars (n : Nat) : List Char :=
  natCharsCore (n + 1) n

/-- Decimal string of a natural number. -/
def natStr (n : Nat) : String :=
  String.mk (natChars n)

/-- One record of the court-address reference table. -/
structure CourtInfo where
  address : String
  city : String
  state : String
  zip : Nat
deriving DecidableEq

/-- The static `COURT_ADDRESSES` map, in source order. -/
def COURT_ADDRESSES : List (String × CourtInfo) :=
  [("boulder", ⟨"1777 6TH ST.", "BOULDER", "CO", 80302⟩),
   ("arapahoe", ⟨"1790 West Littleton Blvd", "Littleton", "CO", 80120⟩),
   ("adams", ⟨"1100 Judicial Center Dr", "Brighton", "CO", 80601⟩),
   ("jefferson", ⟨"100 Jefferson County Pkwy", "Golden", "CO", 80401⟩),
   ("broomfield", ⟨"17 Descombes Dr", "Broomfield", "CO", 80020⟩),
   ("douglas", ⟨"4000 Justice Way", "Castle Rock", "CO", 80109⟩),
   ("el paso", ⟨"270 S Tejon St", "Colorado Springs", "CO", 80903⟩),
   ("weld", ⟨"901 9th Ave", "Greeley", "CO", 80631⟩),
   ("denver", ⟨"Colorado 1437 Bannock Street, Room 135 Denver", "Denver", "CO", 80202⟩)]

/-- Reference lookup `COURT_ADDRESSES.get key`. -/
def courtLookup (key : String) : Option CourtInfo :=
  COURT_ADDRESSES.lookup key

/-- Composite address string built by the court-address custom logic. -/
def formatCourtAddress (ci : CourtInfo) : String :=
  ci.address ++ ", " ++ ci.city ++ ", " ++ ci.state ++ " " ++ natStr ci.zip

/-- Result of one try/catch-guarded sub-action of a custom logic: `none` when
the body threw (pdf-lib field access failed) and was caught by its own
`catch`, `some ops` when it ran to completion performing `ops`. -/
abbrev SubAction := Option (List SetOp)

/-- Recovery performed by the `catch` of each sub-action: a thrown sub-action
contributes no operations, and execution continues. -/
def recover (a : SubAction) : List SetOp :=
  a.getD []

/-- Court-address sub-action (shared shape of several custom logics): get the
named text field (throwing if absent), look up `rowData["County"] ?? ""`
lower-cased, and set the composite address only when the lookup hits. -/
def courtAddressSub (fieldName : String) (schema : FormSchema) (row : Row) : SubAction :=
  if schema.isText fieldName then
    some (match courtLookup (toLowerStr ((rowGet row "County").getD "")) with
      | some ci => [.setText fieldName (formatCourtAddress ci)]
      | none => [])
  else none

/-- Signature-date sub-action of the Complaint custom logic: gets the three
fields first (any miss throws before anything is set), then stamps the
current day, month name and year. -/
def sig1Sub (env : Env) (schema : FormSchema) : SubAction :=
  if schema.isText "Sig1_Date" && schema.isText "Sig1_Month" && schema.isText "Sig1_Year" then
    some [.setText "Sig1_Date" env.sigDay, .setText "Sig1_Month" env.sigMonth,
          .setText "Sig1_Year" env.sigYear]
  else none

/-- Fixed prefix of the eviction-explanation message. -/
def EVICTION_EXPLANATION : String :=
  "Non-payment of utilities and lease charges"

/-- Eviction-explanation sub-action of the Complaint custom logic: appends the
amount when `rowData["Damages"]` is truthy. -/
def explanationSub (schema : FormSchema) (row : Row) : SubAction :=
  if schema.isText "11.0" then
    some (match rowGet row "Damages" with
      | some d =>
        if d = "" then [.setText "11.0" EVICTION_EXPLANATION]
        else [.setText "11.0" (EVICTION_EXPLANATION ++ " in the amount " ++ d)]
      | none => [.setText "11.0" EVICTION_EXPLANATION])
  else none

/-- Interest-formatting sub-action of the Complaint custom logic: rewrites
"10A.5" with the `Intl.NumberFormat` rendering of `rowData["Rent Per Diem"]`
when that value is truthy. -/
def interestSub (env : Env) (schema : FormSchema) (row : Row) : SubAction :=
  if schema.isText "10A.5" then
    some (match rowGet row "Rent Per Diem" with
      | some v => if v = "" then [] else [.setText "10A.5" (env.fmtInterest v)]
      | none => [])
  else none

/-- Signature-date sub-action of the Summons custom logic. -/
def sigDateSub (env : Env) (schema : FormSchema) : SubAction :=
  if schema.isText "Sig_Date" then some [.setText "Sig_Date" env.sigMDY]
  else none

/-- List-level removal of the first occurrence of a character. -/
def removeFirstChar (c : Char) : List Char → List Char
  | [] => []
  | x :: xs => if x = c then xs else x :: removeFirstChar c xs

/-- JavaScript `s.replace("$", "")`: with a plain-string pattern, `replace`
removes only the first occurrence of "$", wherever it is. -/
def removeFirstDollar (s : String) : String :=
  String.mk (removeFirstChar '$' s.data)

/-- Dollar-stripping sub-action of the DFC custom logic (shape shared by the
"1A.1"/"Rent Owed" and "4.7"/"Monthly Rent" blocks): get the text field
(throwing if absent), and when the column value is truthy overwrite the field
with the value minus its first "$". -/
def stripDollarSub (fieldName column : String) (schema : FormSchema) (row : Row) : SubAction :=
  if schema.isText fieldName then
    some (match rowGet row column with
      | some v => if v = "" then [] else [.setText fieldName (removeFirstDollar v)]
      | none => [])
  else none

/-- Custom logic of the Complaint descriptor (`part_000` lines 829-896): four
independently try/catch-guarded sub-actions, in source order. -/
def complaintLogic (env : Env) (schema : FormSchema) (row : Row) : List SetOp :=
  recover (sig1Sub env schema) ++ recover (explanationSub schema row) ++
    recover (courtAddressSub "Court Address" schema row) ++
    recover (interestSub env schema row)

/-- Custom logic of the Summons descriptor (`part_000` lines 908-933). -/
def summonsLogic (env : Env) (schema : FormSchema) (row : Row) : List SetOp :=
  recover (courtAddressSub "Court Address" schema row) ++ recover (sigDateSub env schema)

/-- Custom logic of the CARES Affidavit descriptor (`part_000` lines
943-957). -/
def caresLogic (_env : Env) (schema : FormSchema) (row : Row) : List SetOp :=
  recover (courtAddressSub "court_address" schema row)

/-- Custom logic of the DFC descriptor (`part_000` lines 981-1005, identical
in `App.tsx` lines 450-474): strip the first dollar sign from "Rent Owed"
into "1A.1" and from "Monthly Rent" into "4.7". -/
def dfcLogic (_env : Env) (schema : FormSchema) (row : Row) : List SetOp :=
  recover (stripDollarSub "1A.1" "Rent Owed" schema row) ++
    recover (stripDollarSub "4.7" "Monthly Rent" schema row)

/-- Custom logic of the `App.tsx` Eviction Complaint template (lines
417-431): the court-address enrichment only. -/
def appEvictionLogic (_env : Env) (schema : FormSchema) (row : Row) : List SetOp :=
  recover (courtAddressSub "Court Address" schema row)

/-- One output-document descriptor of the multi-document pipeline
(`PdfOutput` in `part_000`). -/
structure PdfOutput where
  filename : String
  displayName : String
  fieldMapping : Mapping
  customLogic : Option (Env → FormSchema → Row → List SetOp)

/-- A template: ordered list of output descriptors (`TemplateConfig` in
`part_000`). -/
structure TemplateConfig where
  id : String
  name : String
  pdfOutputs : List PdfOutput

/-- Complaint descriptor of the eviction template (`part_000` lines
811-897). -/
def complaintOutput : PdfOutput where
  filename := "jdf_101_v1.pdf"
  displayName := "Complaint"
  fieldMapping :=
    [("County", .many ["Court County", "7.3"]),
     ("Landlord", .one "π"),
     ("Tenant", .many ["∆", "6.4", "7.0"]),
     ("Street Address", .one "7.1"),
     ("City", .one "7.2"),
     ("Zip", .one "7.4"),
     ("Prior Notice", .many ["8.1", "8.5"]),
     ("Prior Notice 2nd", .one "8.4"),
     ("Rent Owed", .one "10A.2"),
     ("Months of Rent", .one "10A.4"),
     ("Rent Per Diem", .one "10A.5"),
     ("Damages", .one "12.1"),
     ("Total", .one "12.3")]
  customLogic := some complaintLogic

/-- Summons descriptor of the eviction template (`part_000` lines 898-934). -/
def summonsOutput : PdfOutput where
  filename := "jdf_102_v1.pdf"
  displayName := "Summons"
  fieldMapping :=
    [("County", .one "Court County"),
     ("Landlord", .one "π"),
     ("Tenant", .one "∆"),
     ("Summons Date", .one "2A.1"),
     ("Time", .one "2A.2")]
  customLogic := some summonsLogic

/-- CARES Affidavit descriptor of the eviction template (`part_000` lines
935-958). -/
def caresOutput : PdfOutput where
  filename := "cares_affidavit_v1.pdf"
  displayName := "CARES Affidavit"
  fieldMapping :=
    [("County", .one "court_county"),
     ("Landlord", .one "plaintiff"),
     ("Tenant", .one "defendants")]
  customLogic := some caresLogic

/-- DFC descriptor of the demand-for-compliance template (`part_000` lines
966-1006). -/
def dfcOutput : PdfOutput where
  filename := "dfc_form.pdf"
  displayName := "DFC"
  fieldMapping :=
    [("Tenant", .one "0.0"),
     ("Rent Owed", .one "1A.1"),
     ("Street Address", .one "4.1"),
     ("City", .one "4.2"),
     ("County", .one "4.3"),
     ("Monthly Rent", .one "4.7"),
     ("Months of rent", .one "1A.2"),
     ("Cure", .one "0.2"),
     ("Date", .one "6.2")]
  customLogic := some dfcLogic

/-- Field mapping of the `App.tsx` Eviction Complaint template (lines
409-416); the standalone `FIELD_MAPPING` of the first `part_000` app (lines
22-35) lists the same pairs except that "Tenant" maps only to ["∆", "7.0"],
which both have. -/
def appEvictionMapping : Mapping :=
  [("County", .many ["Court County", "7.3"]),
   ("Landlord", .one "π"),
   ("Tenant", .many ["∆", "7.0"]),
   ("Street Address", .one "7.1"),
   ("City", .one "7.2"),
   ("Zip", .one "7.4")]

/-- Eviction template of the multi-document pipeline (`part_000` lines
806-960). -/
def EVICTION_COMPLAINT_TEMPLATE : TemplateConfig where
  id := "eviction-complaint"
  name := "Eviction Complaint, Summons and Affidavit"
  pdfOutputs := [complaintOutput, summonsOutput, caresOutput]

/-- Demand-for-compliance template of the multi-document pipeline (`part_000`
lines 962-1008). -/
def DFC_TEMPLATE : TemplateConfig where
  id := "demand-compliance"
  name := "Demand for Compliance (DFC Form)"
  pdfOutputs := [dfcOutput]

/-- The static template registry of the multi-document pipeline. -/
def TEMPLATES : List TemplateConfig :=
  [EVICTION_COMPLAINT_TEMPLATE, DFC_TEMPLATE]

/-- Every field-mapping table appearing in the repository (both pipelines). -/
def allFieldMappings : List Mapping :=
  [complaintOutput.fieldMapping, summonsOutput.fieldMapping, caresOutput.fieldMapping,
   dfcOutput.fieldMapping, appEvictionMapping]

/-- Operations performed while filling one (row, descriptor) unit: the static
mapping loop followed by the descriptor's custom logic, if any. -/
def unitOps (env : Env) (schema : FormSchema) (output : PdfOutput) (row : Row) : List SetOp :=
  fillMappingOps schema row output.fieldMapping ++
    (match output.customLogic with
     | some f => f env schema row
     | none => [])

/-- Character sanitization of `.replace(/[^a-z0-9]/gi, "_")`: every character
outside A-Z, a-z, 0-9 becomes an underscore. -/
def sanitizeChar (c : Char) : Char :=
  if c.isAlphanum then c else '_'

/-- The `safeFilename` computation (`part_000` lines 517-519): sanitize every
character, then `substring(0, 50)`. -/
def safeFilename (s : String) : String :=
  String.mk ((s.data.map sanitizeChar).take 50)

/-- The `tenantName` computation `rowData["Tenant"] || Row_(i+1)` (falsy on
absent and on empty string). -/
def tenantBase (row : Row) (i : Nat) : String :=
  match rowGet row "Tenant" with
  | some v => if v = "" then "Row_" ++ natStr (i + 1) else v
  | none => "Row_" ++ natStr (i + 1)

/-- Display-label slug `displayName.toLowerCase().replace(/\s+/g, "_")`:
lower-case, then collapse every whitespace run to one underscore.  The flag
tracks whether the previous character was part of a whitespace run. -/
def collapseWs : Bool → List Char → List Char
  | _, [] => []
  | prevWs, c :: cs =>
    if c.isWhitespace then
      if prevWs then collapseWs true cs else '_' :: collapseWs true cs
    else c :: collapseWs false cs

/-- Slug of a descriptor display label (`part_000` line 595). -/
def labelSlug (label : String) : String :=
  String.mk (collapseWs false (toLowerStr label).data)

/-- Archive entry name assigned by the multi-document pipeline (`part_000`
line 596): always `<base>_<i+1>_<slug>.pdf`. -/
def multiFilename (row : Row) (i : Nat) (output : PdfOutput) : String :=
  safeFilename (tenantBase row i) ++ "_" ++ natStr (i + 1) ++ "_" ++
    labelSlug output.displayName ++ ".pdf"

/-- Archive entry name assigned by the single-document pipeline (`App.tsx`
line 211 and `part_000` line 169): `<base>_<i+1>.pdf`, no slug. -/
def singleFilename (row : Row) (i : Nat) : String :=
  safeFilename (tenantBase row i) ++ "_" ++ natStr (i + 1) ++ ".pdf"

/-- The loaded template files (`pdfFiles : Map<string, File>`), each carrying
the form shape of its PDF. -/
abbrev LoadedPdfs := List (String × FormSchema)

/-- One archive entry: assigned name and the operations whose application to
the template default state is the filled document content. -/
abbrev Entry := String × List SetOp

/-- Inner loop of `fillPdfForm` in the multi-document pipeline (`part_000`
lines 524-600): for each descriptor, skip it with a console warning when its
template file is not in the loaded map, otherwise fill and add the named
entry. -/
def processRow (env : Env) (files : LoadedPdfs) (row : Row) (i : Nat) :
    List PdfOutput → List Entry
  | [] => []
  | o :: os =>
    (match files.lookup o.filename with
     | none => []
     | some schema => [(multiFilename row i o, unitOps env schema o row)]) ++
      processRow env files row i os

/-- Outer loop of `fillPdfForm` over the CSV rows, carrying the row index. -/
def runRows (env : Env) (files : LoadedPdfs) (outputs : List PdfOutput) :
    Nat → List Row → List Entry
  | _, [] => []
  | i, row :: rest =>
    processRow env files row i outputs ++ runRows env files outputs (i + 1) rest

/-- Archive contents produced by one complete run of the multi-document
pipeline. -/
def runBatch (env : Env) (files : LoadedPdfs) (tmpl : TemplateConfig) (rows : List Row) :
    List Entry :=
  runRows env files tmpl.pdfOutputs 0 rows

/-- Repackaging of the `App.tsx` Eviction Complaint template (lines 404-432)
as a descriptor of the uniform shape: one output document per row, same
static mapping plus the court-address custom logic. -/
def appEvictionOutput : PdfOutput where
  filename := "jdf101.pdf"
  displayName := "Eviction Complaint (JDF101)"
  fieldMapping := appEvictionMapping
  customLogic := some appEvictionLogic

/-- Repackaging of the `App.tsx` Demand for Compliance template (lines
434-475): same mapping and custom logic as the multi-document DFC
descriptor, different source file. -/
def appDfcOutput : PdfOutput where
  filename := "dfc_form.pdf"
  displayName := "Demand for Compliance (DFC Form)"
  fieldMapping := dfcOutput.fieldMapping
  customLogic := some dfcLogic

/-- Repackaging of the first `part_000` app (lines 22-35 and 83-205): the
user-uploaded template, the global `FIELD_MAPPING` (whose pairs are those of
`appEvictionMapping`), and no custom logic. -/
def v1Output : PdfOutput where
  filename := ""
  displayName := ""
  fieldMapping := appEvictionMapping
  customLogic := none

/-- Every output-document descriptor appearing in the repository. -/
def allDescriptors : List PdfOutput :=
  [complaintOutput, summonsOutput, caresOutput, dfcOutput,
   appEvictionOutput, appDfcOutput, v1Output]

/-- Pairwise disjointness of the target-field lists of a mapping (no two
mapping pairs share a target field).  Holds for every mapping table in this
repository and is checked by `decide` on the concrete tables. -/
def TargetsSeparated : Mapping → Prop
  | [] => True
  | p :: ps => (∀ q ∈ ps, ∀ g ∈ p.2.toList, g ∉ q.2.toList) ∧ TargetsSeparated ps

def decTargetsSeparated : (m : Mapping) → Decidable (TargetsSeparated m)
  | [] => .isTrue trivial
  | p :: ps =>
    have : Decidable (TargetsSeparated ps) := decTargetsSeparated ps
    decidable_of_iff
      ((∀ q ∈ ps, ∀ g ∈ p.2.toList, g ∉ q.2.toList) ∧ TargetsSeparated ps) Iff.rfl

instance : ∀ m : Mapping, Decidable (TargetsSeparated m) := decTargetsSeparated

/-- A form state with every field still at its template default. -/
def emptyState : FormState where
  text := fun _ => none
  checked := fun _ => none

/-- A concrete ambient environment used to instantiate witnesses. -/
def sampleEnv : Env where
  sigDay := "7"
  sigMonth := "March"
  sigYear := "2025"
  sigMDY := "3/7/2025"
  fmtInterest := fun s => s

/-- A second concrete environment, differing from `sampleEnv` in the
wall-clock date only. -/
def sampleEnv2 : Env where
  sigDay := "8"
  sigMonth := "March"
  sigYear := "2025"
  sigMDY := "3/8/2025"
  fmtInterest := fun s => s

/-- Modelled from the spec: sanitization as the claim words it, replacing
every character outside the classes A-Z, a-z, 0-9 with an underscore and
truncating to 50 characters.  Compared against the source-derived
`safeFilename`. -/
def specSanitize (s : String) : String :=
  String.mk ((s.data.map fun c =>
    if (('A' ≤ c ∧ c ≤ 'Z') ∨ ('a' ≤ c ∧ c ≤ 'z') ∨ ('0' ≤ c ∧ c ≤ '9')) then c
    else '_').take 50)

/-- Modelled from the spec: the base name, the row's "Tenant" value or the
synthetic fallback `Row_<i+1>` when that value is absent or empty. -/
def specBase (row : Row) (i : Nat) : String :=
  match rowGet row "Tenant" with
  | some v => if v = "" then "Row_" ++ natStr (i + 1) else v
  | none => "Row_" ++ natStr (i + 1)

/-- Modelled from the spec: the entry-name formula exactly as claim C3 states
it, with the slug appended only when the template produces more than one
document per row (`K` is the descriptor count). -/
def specClaimName (row : Row) (i K : Nat) (label : String) : String :=
  if K = 1 then specSanitize (specBase row i) ++ "_" ++ natStr (i + 1) ++ ".pdf"
  else specSanitize (specBase row i) ++ "_" ++ natStr (i + 1) ++ "_" ++
    labelSlug label ++ ".pdf"

/-- Modelled from the spec: the post-processing formula exactly as claim C7
states it, the value with a leading currency symbol stripped. -/
def stripLeadingDollar (s : String) : String :=
  match s.data with
  | '$' :: rest => String.mk rest
  | _ => s

/-- Result of one (row, descriptor) unit when the fallible external steps
(template load, document save) are modelled: `Except.error` is a thrown
exception escaping the unit. -/
abbrev UnitResult := Except String Entry

/-- The body of the `try` block of `fillPdfForm`: the loop accumulates
entries, and the first exception that escapes a unit aborts the iteration
(nothing after it runs, previously accumulated entries are abandoned with
the never-finalized archive). -/
def collectUnits : List UnitResult → Except String (List Entry)
  | [] => .ok []
  | u :: us =>
    match u with
    | .error e => .error e
    | .ok entry =>
      match collectUnits us with
      | .error e => .error e
      | .ok rest => .ok (entry :: rest)

/-- User-visible outcome of a run: the delivered archive (if the `try` block
reached finalization) and the single error message set by the `catch`
(lines 619-625). -/
structure RunOutcome where
  delivered : Option (List Entry)
  errorMsg : Option String

/-- The whole `try`/`catch` of `fillPdfForm`: on success the archive is
finalized and delivered, on any escaped exception nothing is delivered and
exactly one error message is surfaced. -/
def runGuarded (units : List UnitResult) : RunOutcome :=
  match collectUnits units with
  | .ok es => ⟨some es, none⟩
  | .error e => ⟨none, some e⟩

/-! Basic facts about the decimal rendering `natChars`. -/

/-- Fuel irrelevance for `natCharsCore`: any fuel above the argument computes
the same digit list. -/
theorem natCharsCore_congr (f : Nat) : ∀ (g n : Nat), n < f → n < g →
    natCharsCore f n = natCharsCore g n := by
  induction f with
  | zero => intro g n hf _; omega
  | succ f ih =>
    intro g n hf hg
    cases g with
    | zero => omega
    | succ g =>
      simp only [natCharsCore]
      by_cases h10 : n < 10
      · simp [h10]
      · have hdiv : n / 10 < n := Nat.div_lt_self (by omega) (by omega)
        simp only [h10, if_false]
        rw [ih g (n / 10) (by omega) (by omega)]

/-- Unfolding equation for `natChars`. -/
theorem natChars_eq (n : Nat) :
    natChars n = if n < 10 then [Nat.digitChar n]
      else natChars (n / 10) ++ [Nat.digitChar (n % 10)] := by
  by_cases h10 : n < 10
  · simp [natChars, natCharsCore, h10]
  · have hdiv : n / 10 < n := Nat.div_lt_self (by omega) (by omega)
    simp only [h10, if_false]
    show natCharsCore (n + 1) n = natChars (n / 10) ++ [Nat.digitChar (n % 10)]
    rw [show natCharsCore (n + 1) n = natCharsCore n (n / 10) ++ [Nat.digitChar (n % 10)] from
      by simp [natCharsCore, h10]]
    rw [natCharsCore_congr n (n / 10 + 1) (n / 10) (by omega) (by omega)]
    rfl

theorem natChars_ne_nil (n : Nat) : natChars n ≠ [] := by
  rw [natChars_eq]
  by_cases h10 : n < 10 <;> simp [h10]

/-- Digit characters produced for digits are never an underscore. -/
theorem digitChar_ne_underscore : ∀ k < 10, Nat.digitChar k ≠ '_' := by decide

/-- Digit characters of distinct digits are distinct. -/
theorem digitChar_inj_lt : ∀ a < 10, ∀ b < 10, Nat.digitChar a = Nat.digitChar b → a = b := by
  decide

/-- Decimal renderings never contain an underscore. -/
theorem natChars_no_underscore (n : Nat) : ∀ c ∈ natChars n, c ≠ '_' := by
  induction n using Nat.strong_induction_on with
  | _ n ih =>
    rw [natChars_eq]
    by_cases h10 : n < 10
    · simp only [h10, if_true]
      intro c hc
      simp only [List.mem_singleton] at hc
      subst hc
      exact digitChar_ne_underscore n h10
    · have hdiv : n / 10 < n := Nat.div_lt_self (by omega) (by omega)
      simp only [h10, if_false]
      intro c hc
      rcases List.mem_append.mp hc with h | h
      · exact ih (n / 10) hdiv c h
      · simp only [List.mem_singleton] at h
        subst h
        exact digitChar_ne_underscore (n % 10) (Nat.mod_lt _ (by omega))

/-- Decimal rendering is injective: distinct numbers have distinct digit
lists. -/
theorem natChars_inj : ∀ m n : Nat, natChars m = natChars n → m = n := by
  intro m
  induction m using Nat.strong_induction_on with
  | _ m ih =>
    intro n h
    rw [natChars_eq m, natChars_eq n] at h
    by_cases hm : m < 10 <;> by_cases hn : n < 10
    · simp only [hm, hn, if_true, List.cons.injEq] at h
      exact digitChar_inj_lt m hm n hn h.1
    · simp only [hm, hn, if_true, if_false] at h
      have hlen := congrArg List.length h
      simp only [List.length_append, List.length_singleton] at hlen
      have h0 : (natChars (n / 10)).length = 0 := by omega
      exact absurd (List.length_eq_zero.mp h0) (natChars_ne_nil _)
    · simp only [hm, hn, if_true, if_false] at h
      have hlen := congrArg List.length h
      simp only [List.length_append, List.length_singleton] at hlen
      have h0 : (natChars (m / 10)).length = 0 := by omega
      exact absurd (List.length_eq_zero.mp h0) (natChars_ne_nil _)
    · simp only [hm, hn, if_false] at h
      have hlen : (natChars (m / 10)).length = (natChars (n / 10)).length := by
        have := congrArg List.length h
        simp at this
        omega
      obtain ⟨h1, h2⟩ := List.append_inj h hlen
      have hdiv : m / 10 < m := Nat.div_lt_self (by omega) (by omega)
      have hq : m / 10 = n / 10 := ih (m / 10) hdiv (n / 10) h1
      have hr : m % 10 = n % 10 := by
        simp only [List.cons.injEq] at h2
        exact digitChar_inj_lt (m % 10) (Nat.mod_lt _ (by omega)) (n % 10)
          (Nat.mod_lt _ (by omega)) h2.1
      omega

/-! Frame lemmas: which fields the fill operations can touch. -/

theorem applyOps_append (st : FormState) (a b : List SetOp) :
    applyOps st (a ++ b) = applyOps (applyOps st a) b :=
  List.foldl_append applyOp st a b

theorem applyOp_text_frame (st : FormState) (op : SetOp) (f : String)
    (h : op.fieldName ≠ f) : (applyOp st op).text f = st.text f := by
  cases op with
  | setText g v =>
    simp only [SetOp.fieldName] at h
    simp only [applyOp]
    exact if_neg fun e => h e.symm
  | check g => rfl
  | uncheck g => rfl

theorem applyOp_checked_frame (st : FormState) (op : SetOp) (f : String)
    (h : op.fieldName ≠ f) : (applyOp st op).checked f = st.checked f := by
  cases op with
  | setText g v => rfl
  | check g =>
    simp only [SetOp.fieldName] at h
    simp only [applyOp]
    exact if_neg fun e => h e.symm
  | uncheck g =>
    simp only [SetOp.fieldName] at h
    simp only [applyOp]
    exact if_neg fun e => h e.symm

/-- Fields never written by a list of operations keep their content. -/
theorem applyOps_text_frame (ops : List SetOp) (f : String)
    (h : ∀ op ∈ ops, op.fieldName ≠ f) :
    ∀ st : FormState, (applyOps st ops).text f = st.text f := by
  induction ops with
  | nil => intro st; rfl
  | cons op rest ih =>
    intro st
    have hop := h op (List.mem_cons_self op rest)
    have hrest : ∀ o ∈ rest, o.fieldName ≠ f := fun o ho => h o (List.mem_cons_of_mem op ho)
    show (applyOps (applyOp st op) rest).text f = st.text f
    rw [ih hrest, applyOp_text_frame st op f hop]

/-- Checkbox analogue of `applyOps_text_frame`. -/
theorem applyOps_checked_frame (ops : List SetOp) (f : String)
    (h : ∀ op ∈ ops, op.fieldName ≠ f) :
    ∀ st : FormState, (applyOps st ops).checked f = st.checked f := by
  induction ops with
  | nil => intro st; rfl
  | cons op rest ih =>
    intro st
    have hop := h op (List.mem_cons_self op rest)
    have hrest : ∀ o ∈ rest, o.fieldName ≠ f := fun o ho => h o (List.mem_cons_of_mem op ho)
    show (applyOps (applyOp st op) rest).checked f = st.checked f
    rw [ih hrest, applyOp_checked_frame st op f hop]

/-- Operations produced for one target name only write that name. -/
theorem setFieldOps_field (schema : FormSchema) (n v : String) :
    ∀ op ∈ setFieldOps schema n v, op.fieldName = n := by
  intro op hop
  simp only [setFieldOps] at hop
  split at hop
  · simp only [List.mem_singleton] at hop; subst hop; rfl
  · split at hop
    · split at hop <;> (simp only [List.mem_singleton] at hop; subst hop; rfl)
    · exact absurd hop (List.not_mem_nil op)

/-- Operations of the per-pair inner loop only write the listed targets. -/
theorem setEachField_field (schema : FormSchema) (v : String) :
    ∀ ns, ∀ op ∈ setEachField schema v ns, op.fieldName ∈ ns := by
  intro ns
  induction ns with
  | nil => intro op hop; exact absurd hop (List.not_mem_nil op)
  | cons n rest ih =>
    intro op hop
    rcases List.mem_append.mp hop with h | h
    · exact List.mem_cons.mpr (Or.inl (setFieldOps_field schema n v op h))
    · exact List.mem_cons.mpr (Or.inr (ih op h))

/-- Operations of one mapping pair only write that pair's target fields. -/
theorem pairOps_field (schema : FormSchema) (row : Row) (p : String × FieldTarget) :
    ∀ op ∈ pairOps schema row p, op.fieldName ∈ p.2.toList := by
  intro op hop
  unfold pairOps at hop
  split at hop
  · exact absurd hop (List.not_mem_nil op)
  · split at hop
    · exact absurd hop (List.not_mem_nil op)
    · exact setEachField_field schema _ p.2.toList op hop

/-- A mapping pair whose value is absent or empty performs no operation at
all. -/
theorem pairOps_skip (schema : FormSchema) (row : Row) (p : String × FieldTarget)
    (h : truthy (rowGet row p.1) = false) : pairOps schema row p = [] := by
  unfold pairOps
  split
  · rfl
  · rename_i v heq
    rw [heq] at h
    simp only [truthy, bne_eq_false_iff_eq] at h
    simp [h]

/-- Every operation of the static fill loop comes from one of the mapping
pairs. -/
theorem fillMappingOps_mem (schema : FormSchema) (row : Row) :
    ∀ m : Mapping, ∀ op ∈ fillMappingOps schema row m,
      ∃ p ∈ m, op ∈ pairOps schema row p := by
  intro m
  induction m with
  | nil => intro op hop; exact absurd hop (List.not_mem_nil op)
  | cons p ps ih =>
    intro op hop
    rcases List.mem_append.mp hop with h | h
    · exact ⟨p, List.mem_cons_self p ps, h⟩
    · obtain ⟨q, hq, hopq⟩ := ih op h
      exact ⟨q, List.mem_cons_of_mem p hq, hopq⟩

/-- Frame property of the static fill loop: when one pair's value is absent
or empty and no other pair shares its targets, no operation of the whole
loop writes any of that pair's target fields. -/
theorem fillMappingOps_frame (schema : FormSchema) (row : Row) :
    ∀ (m : Mapping) (c : String) (t : FieldTarget) (f : String),
      TargetsSeparated m → (c, t) ∈ m → truthy (rowGet row c) = false → f ∈ t.toList →
      ∀ op ∈ fillMappingOps schema row m, op.fieldName ≠ f := by
  intro m
  induction m with
  | nil => intro c t f _ hmem; exact absurd hmem (List.not_mem_nil _)
  | cons p ps ih =>
    intro c t f hsep hmem hskip hf op hop
    obtain ⟨hsep1, hsep2⟩ := hsep
    rcases List.mem_append.mp hop with hop | hop
    · -- op comes from the head pair
      rcases List.mem_cons.mp hmem with heq | hmem2
      · rw [← heq] at hop
        rw [pairOps_skip schema row (c, t) hskip] at hop
        exact absurd hop (List.not_mem_nil op)
      · intro hEq
        have hfield := pairOps_field schema row p op hop
        rw [hEq] at hfield
        exact hsep1 (c, t) hmem2 f hfield hf
    · -- op comes from the remaining pairs
      rcases List.mem_cons.mp hmem with heq | hmem2
      · intro hEq
        obtain ⟨q, hq, hopq⟩ := fillMappingOps_mem schema row ps op hop
        have hfield := pairOps_field schema row q op hopq
        rw [hEq] at hfield
        rw [← heq] at hsep1
        exact hsep1 q hq f hf hfield
      · exact ih c t f hsep2 hmem2 hskip hf op hop

/-! Field characterization of the custom-logic sub-actions. -/

theorem courtAddressSub_field (fld : String) (schema : FormSchema) (row : Row) :
    ∀ op ∈ recover (courtAddressSub fld schema row), op.fieldName = fld := by
  intro op hop
  unfold courtAddressSub recover at hop
  split at hop
  · simp only [Option.getD_some] at hop
    split at hop
    · simp only [List.mem_singleton] at hop; subst hop; rfl
    · exact absurd hop (List.not_mem_nil op)
  · simp only [Option.getD_none] at hop
    exact absurd hop (List.not_mem_nil op)

theorem sig1Sub_field (env : Env) (schema : FormSchema) :
    ∀ op ∈ recover (sig1Sub env schema),
      op.fieldName ∈ (["Sig1_Date", "Sig1_Month", "Sig1_Year"] : List String) := by
  intro op hop
  unfold sig1Sub recover at hop
  split at hop
  · simp only [Option.getD_some, List.mem_cons, List.not_mem_nil, or_false] at hop
    rcases hop with rfl | rfl | rfl <;> simp [SetOp.fieldName]
  · simp only [Option.getD_none] at hop
    exact absurd hop (List.not_mem_nil op)

theorem explanationSub_field (schema : FormSchema) (row : Row) :
    ∀ op ∈ recover (explanationSub schema row), op.fieldName = "11.0" := by
  intro op hop
  unfold explanationSub recover at hop
  split at hop
  · simp only [Option.getD_some] at hop
    split at hop
    · split at hop <;> (simp only [List.mem_singleton] at hop; subst hop; rfl)
    · simp only [List.mem_singleton] at hop; subst hop; rfl
  · simp only [Option.getD_none] at hop
    exact absurd hop (List.not_mem_nil op)

theorem interestSub_field (env : Env) (schema : FormSchema) (row : Row) :
    ∀ op ∈ recover (interestSub env schema row),
      op.fieldName = "10A.5" ∧ truthy (rowGet row "Rent Per Diem") = true := by
  intro op hop
  unfold interestSub recover at hop
  split at hop
  · simp only [Option.getD_some] at hop
    split at hop
    · rename_i v heq
      split at hop
      · exact absurd hop (List.not_mem_nil op)
      · rename_i hne
        simp only [List.mem_singleton] at hop; subst hop
        exact ⟨rfl, by rw [heq]; simp [truthy, hne]⟩
    · exact absurd hop (List.not_mem_nil op)
  · simp only [Option.getD_none] at hop
    exact absurd hop (List.not_mem_nil op)

theorem sigDateSub_field (env : Env) (schema : FormSchema) :
    ∀ op ∈ recover (sigDateSub env schema), op.fieldName = "Sig_Date" := by
  intro op hop
  unfold sigDateSub recover at hop
  split at hop
  · simp only [Option.getD_some, List.mem_singleton] at hop; subst hop; rfl
  · simp only [Option.getD_none] at hop
    exact absurd hop (List.not_mem_nil op)

theorem stripDollarSub_field (fld col : String) (schema : FormSchema) (row : Row) :
    ∀ op ∈ recover (stripDollarSub fld col schema row),
      op.fieldName = fld ∧ truthy (rowGet row col) = true := by
  intro op hop
  unfold stripDollarSub recover at hop
  split at hop
  · simp only [Option.getD_some] at hop
    split at hop
    · rename_i v heq
      split at hop
      · exact absurd hop (List.not_mem_nil op)
      · rename_i hne
        simp only [List.mem_singleton] at hop; subst hop
        exact ⟨rfl, by rw [heq]; simp [truthy, hne]⟩
    · exact absurd hop (List.not_mem_nil op)
  · simp only [Option.getD_none] at hop
    exact absurd hop (List.not_mem_nil op)

/-- Fields a complaint custom-logic run can write: the three signature
fields, "11.0" and "Court Address" unconditionally, and "10A.5" only when
the "Rent Per Diem" value is truthy. -/
theorem complaintLogic_char (env : Env) (schema : FormSchema) (row : Row) :
    ∀ op ∈ complaintLogic env schema row,
      op.fieldName ∈ (["Sig1_Date", "Sig1_Month", "Sig1_Year", "11.0",
        "Court Address"] : List String) ∨
      ∃ g ∈ ([("Rent Per Diem", "10A.5")] : List (String × String)),
        op.fieldName = g.2 ∧ truthy (rowGet row g.1) = true := by
  intro op hop
  simp only [complaintLogic, List.mem_append] at hop
  rcases hop with ((h | h) | h) | h
  · left
    have h3 := sig1Sub_field env schema op h
    simp only [List.mem_cons, List.mem_singleton] at h3 ⊢
    tauto
  · left
    rw [explanationSub_field schema row op h]
    simp
  · left
    rw [courtAddressSub_field "Court Address" schema row op h]
    simp
  · right
    obtain ⟨h1, h2⟩ := interestSub_field env schema row op h
    exact ⟨("Rent Per Diem", "10A.5"), List.mem_singleton.mpr rfl, h1, h2⟩

/-- Fields a summons custom-logic run can write. -/
theorem summonsLogic_char (env : Env) (schema : FormSchema) (row : Row) :
    ∀ op ∈ summonsLogic env schema row,
      op.fieldName ∈ (["Court Address", "Sig_Date"] : List String) ∨
      ∃ g ∈ ([] : List (String × String)),
        op.fieldName = g.2 ∧ truthy (rowGet row g.1) = true := by
  intro op hop
  simp only [summonsLogic, List.mem_append] at hop
  rcases hop with h | h
  · left; rw [courtAddressSub_field "Court Address" schema row op h]; simp
  · left; rw [sigDateSub_field env schema op h]; simp

/-- Fields a CARES-affidavit custom-logic run can write. -/
theorem caresLogic_char (env : Env) (schema : FormSchema) (row : Row) :
    ∀ op ∈ caresLogic env schema row,
      op.fieldName ∈ (["court_address"] : List String) ∨
      ∃ g ∈ ([] : List (String × String)),
        op.fieldName = g.2 ∧ truthy (rowGet row g.1) = true := by
  intro op hop
  left
  rw [courtAddressSub_field "court_address" schema row op hop]
  simp

/-- Fields a DFC custom-logic run can write: "1A.1" only when "Rent Owed" is
truthy, "4.7" only when "Monthly Rent" is truthy. -/
theorem dfcLogic_char (env : Env) (schema : FormSchema) (row : Row) :
    ∀ op ∈ dfcLogic env schema row,
      op.fieldName ∈ ([] : List String) ∨
      ∃ g ∈ ([("Rent Owed", "1A.1"), ("Monthly Rent", "4.7")] : List (String × String)),
        op.fieldName = g.2 ∧ truthy (rowGet row g.1) = true := by
  intro op hop
  simp only [dfcLogic, List.mem_append] at hop
  right
  rcases hop with h | h
  · obtain ⟨h1, h2⟩ := stripDollarSub_field "1A.1" "Rent Owed" schema row op h
    exact ⟨("Rent Owed", "1A.1"), by simp, h1, h2⟩
  · obtain ⟨h1, h2⟩ := stripDollarSub_field "4.7" "Monthly Rent" schema row op h
    exact ⟨("Monthly Rent", "4.7"), by simp, h1, h2⟩

/-- Fields the `App.tsx` eviction custom-logic run can write. -/
theorem appEvictionLogic_char (env : Env) (schema : FormSchema) (row : Row) :
    ∀ op ∈ appEvictionLogic env schema row,
      op.fieldName ∈ (["Court Address"] : List String) ∨
      ∃ g ∈ ([] : List (String × String)),
        op.fieldName = g.2 ∧ truthy (rowGet row g.1) = true := by
  intro op hop
  left
  rw [courtAddressSub_field "Court Address" schema row op hop]
  simp

/-- Generic frame result for a custom logic characterized by a list of
unconditionally-writable fields and a list of guarded (column, field) pairs:
if the skipped pair's targets are outside the unconditional fields and every
guarded field appears only as target of its own guard column, the custom
logic never writes the skipped pair's targets. -/
theorem customOps_frame (m : Mapping) (c : String) (t : FieldTarget) (f : String)
    (row : Row) (ops : List SetOp) (fixed : List String) (guarded : List (String × String))
    (hchar : ∀ op ∈ ops, op.fieldName ∈ fixed ∨
      ∃ g ∈ guarded, op.fieldName = g.2 ∧ truthy (rowGet row g.1) = true)
    (hfixed : ∀ p ∈ m, ∀ g ∈ p.2.toList, g ∉ fixed)
    (hguard : ∀ p ∈ m, ∀ g ∈ guarded, g.2 ∈ p.2.toList → p.1 = g.1)
    (hmem : (c, t) ∈ m) (hskip : truthy (rowGet row c) = false) (hf : f ∈ t.toList) :
    ∀ op ∈ ops, op.fieldName ≠ f := by
  intro op hop hEq
  rcases hchar op hop with hfix | ⟨g, hg, hgf, htr⟩
  · rw [hEq] at hfix
    exact hfixed (c, t) hmem f hf hfix
  · rw [hEq] at hgf
    have hft : g.2 ∈ t.toList := by rw [← hgf]; exact hf
    have hc : c = g.1 := hguard (c, t) hmem g hg hft
    rw [hc] at hskip
    rw [htr] at hskip
    simp at hskip

/-- C1: for every row and every (column, target fields) pair in a
repository descriptor's field mapping, if the column is absent from the row
or its value is empty, the filler (static mapping loop plus the descriptor's
custom logic) performs no set operation on any of that pair's target fields,
so those fields keep their template-default content and in particular are
never written with an empty string. -/
theorem fill_skips_absent_or_empty_values :
    ∀ d ∈ allDescriptors, ∀ (env : Env) (schema : FormSchema) (row : Row)
      (c : String) (t : FieldTarget),
      (c, t) ∈ d.fieldMapping →
      rowGet row c = none ∨ rowGet row c = some "" →
      ∀ f ∈ t.toList,
        (∀ op ∈ unitOps env schema d row, op.fieldName ≠ f) ∧
        ∀ st : FormState,
          (applyOps st (unitOps env schema d row)).text f = st.text f ∧
          (applyOps st (unitOps env schema d row)).checked f = st.checked f := by
  intro d hd env schema row c t hmem hskip0 f hf
  have hskip : truthy (rowGet row c) = false := by
    rcases hskip0 with h | h <;> simp [truthy, h]
  suffices hframe : ∀ op ∈ unitOps env schema d row, op.fieldName ≠ f by
    exact ⟨hframe, fun st =>
      ⟨applyOps_text_frame _ f hframe st, applyOps_checked_frame _ f hframe st⟩⟩
  simp only [allDescriptors, List.mem_cons, List.not_mem_nil, or_false] at hd
  rcases hd with rfl | rfl | rfl | rfl | rfl | rfl | rfl
  · intro op hop
    simp only [unitOps, complaintOutput, List.mem_append] at hop
    rcases hop with hop | hop
    · exact fillMappingOps_frame schema row complaintOutput.fieldMapping c t f
        (by decide) hmem hskip hf op hop
    · exact customOps_frame complaintOutput.fieldMapping c t f row
        (complaintLogic env schema row)
        ["Sig1_Date", "Sig1_Month", "Sig1_Year", "11.0", "Court Address"]
        [("Rent Per Diem", "10A.5")]
        (complaintLogic_char env schema row) (by decide) (by decide)
        hmem hskip hf op hop
  · intro op hop
    simp only [unitOps, summonsOutput, List.mem_append] at hop
    rcases hop with hop | hop
    · exact fillMappingOps_frame schema row summonsOutput.fieldMapping c t f
        (by decide) hmem hskip hf op hop
    · exact customOps_frame summonsOutput.fieldMapping c t f row
        (summonsLogic env schema row) ["Court Address", "Sig_Date"] []
        (summonsLogic_char env schema row) (by decide) (by decide)
        hmem hskip hf op hop
  · intro op hop
    simp only [unitOps, caresOutput, List.mem_append] at hop
    rcases hop with hop | hop
    · exact fillMappingOps_frame schema row caresOutput.fieldMapping c t f
        (by decide) hmem hskip hf op hop
    · exact customOps_frame caresOutput.fieldMapping c t f row
        (caresLogic env schema row) ["court_address"] []
        (caresLogic_char env schema row) (by decide) (by decide)
        hmem hskip hf op hop
  · intro op hop
    simp only [unitOps, dfcOutput, List.mem_append] at hop
    rcases hop with hop | hop
    · exact fillMappingOps_frame schema row dfcOutput.fieldMapping c t f
        (by decide) hmem hskip hf op hop
    · exact customOps_frame dfcOutput.fieldMapping c t f row
        (dfcLogic env schema row) []
        [("Rent Owed", "1A.1"), ("Monthly Rent", "4.7")]
        (dfcLogic_char env schema row) (by decide) (by decide)
        hmem hskip hf op hop
  · intro op hop
    simp only [unitOps, appEvictionOutput, List.mem_append] at hop
    rcases hop with hop | hop
    · exact fillMappingOps_frame schema row appEvictionOutput.fieldMapping c t f
        (by decide) hmem hskip hf op hop
    · exact customOps_frame appEvictionOutput.fieldMapping c t f row
        (appEvictionLogic env schema row) ["Court Address"] []
        (appEvictionLogic_char env schema row) (by decide) (by decide)
        hmem hskip hf op hop
  · intro op hop
    simp only [unitOps, appDfcOutput, List.mem_append] at hop
    rcases hop with hop | hop
    · exact fillMappingOps_frame schema row appDfcOutput.fieldMapping c t f
        (by decide) hmem hskip hf op hop
    · exact customOps_frame appDfcOutput.fieldMapping c t f row
        (dfcLogic env schema row) []
        [("Rent Owed", "1A.1"), ("Monthly Rent", "4.7")]
        (dfcLogic_char env schema row) (by decide) (by decide)
        hmem hskip hf op hop
  · intro op hop
    simp only [unitOps, v1Output, List.mem_append, List.not_mem_nil, or_false] at hop
    exact fillMappingOps_frame schema row v1Output.fieldMapping c t f
      (by decide) hmem hskip hf op hop

/-- Witness for C1: a row without a "County" column leaves the complaint
descriptor's "Court County" field at its template default. -/
theorem fill_skips_absent_or_empty_values_witness :
    (applyOps emptyState
      (unitOps sampleEnv ⟨["Court County"], []⟩ complaintOutput [])).text "Court County" =
      emptyState.text "Court County" :=
  ((fill_skips_absent_or_empty_values complaintOutput
      (by simp [allDescriptors]) sampleEnv ⟨["Court County"], []⟩ []
      "County" (.many ["Court County", "7.3"]) (by decide) (Or.inl rfl)
      "Court County" (by decide)).2 emptyState).1

/-! Checkbox interpretation (claim C2). -/

theorem isCheckedValue_iff (v : String) :
    isCheckedValue v = true ↔ (toLowerStr v = "true" ∨ toLowerStr v = "yes" ∨ v = "1") := by
  simp [isCheckedValue, or_assoc]

/-- C2: for every non-empty mapped value whose target field is not a text
field but is a checkbox, the filler explicitly sets the checkbox, checked iff
the value case-insensitively equals "true" or "yes" or equals the literal
"1", and explicitly unchecked for every other non-empty value. -/
theorem checkbox_interpretation (schema : FormSchema) (name v : String)
    (hnotText : schema.isText name = false) (hcb : schema.isCheckBox name = true)
    (_hne : v ≠ "") :
    setFieldOps schema name v =
      [if toLowerStr v = "true" ∨ toLowerStr v = "yes" ∨ v = "1" then SetOp.check name
       else SetOp.uncheck name] := by
  cases h : isCheckedValue v with
  | true =>
    simp only [setFieldOps, hnotText, hcb, h, Bool.false_eq_true, if_false, if_true]
    rw [if_pos ((isCheckedValue_iff v).mp h)]
  | false =>
    simp only [setFieldOps, hnotText, hcb, h, Bool.false_eq_true, if_false, if_true]
    rw [if_neg fun hp => by rw [(isCheckedValue_iff v).mpr hp] at h; cases h]

/-- Witness for C2: on a form where "AgreeBox" is only a checkbox, the value
"Yes" checks it. -/
theorem checkbox_interpretation_witness :
    setFieldOps ⟨[], ["AgreeBox"]⟩ "AgreeBox" "Yes" = [SetOp.check "AgreeBox"] := by
  rw [checkbox_interpretation ⟨[], ["AgreeBox"]⟩ "AgreeBox" "Yes" rfl (by decide) (by decide)]
  decide

/-! Reference lookup and the court-address enrichment (claim C8). -/

/-- Association-list lookup returns `none` exactly for keys that are not in
the table; absence is an ordinary value, not a failure. -/
theorem lookup_eq_none_iff_not_mem_keys {β : Type} (l : List (String × β)) (a : String) :
    l.lookup a = none ↔ a ∉ l.map Prod.fst := by
  induction l with
  | nil => simp [List.lookup]
  | cons p ps ih =>
    simp only [List.lookup, List.map_cons, List.mem_cons]
    cases hb : (a == p.1) with
    | true =>
      have : a = p.1 := eq_of_beq hb
      simp [this]
    | false =>
      have hne : ¬a = p.1 := fun e => by subst e; simp at hb
      simp [hne, ih]

/-- C8: when the row's "County" value (lower-cased, with absent treated as
the empty string) is not a key of the court-address table, the court-address
custom logic performs no operation and leaves the target field untouched;
and the lookup reports absence as a normal `none` outcome exactly for
non-keys. -/
theorem missing_county_skips_enrichment (fieldName : String) (schema : FormSchema)
    (row : Row) (st : FormState)
    (h : courtLookup (toLowerStr ((rowGet row "County").getD "")) = none) :
    recover (courtAddressSub fieldName schema row) = [] ∧
    (applyOps st (recover (courtAddressSub fieldName schema row))).text fieldName =
      st.text fieldName ∧
    ∀ k : String, (courtLookup k = none ↔ k ∉ COURT_ADDRESSES.map Prod.fst) := by
  have hops : recover (courtAddressSub fieldName schema row) = [] := by
    unfold courtAddressSub recover
    split
    · simp [h]
    · simp
  refine ⟨hops, ?_, ?_⟩
  · rw [hops]; rfl
  · intro k
    exact lookup_eq_none_iff_not_mem_keys COURT_ADDRESSES k

/-- Witness for C8: county "Gunnison" is not in the table and the enrichment
is skipped. -/
theorem missing_county_skips_enrichment_witness :
    recover (courtAddressSub "Court Address" ⟨["Court Address"], []⟩
      [("County", "Gunnison")]) = [] :=
  (missing_county_skips_enrichment "Court Address" ⟨["Court Address"], []⟩
    [("County", "Gunnison")] emptyState (by decide)).1

/-! Per-sub-action fault isolation (claim C9). -/

/-- C9: inside one custom-logic invocation every sub-action is guarded by its
own try/catch, so a sub-action that throws contributes nothing while all the
other sub-actions of the same rule still run with unchanged results, and the
rule as a whole always returns normally. -/
theorem subactions_fault_isolated (env : Env) (schema : FormSchema) (row : Row) :
    (sig1Sub env schema = none →
      complaintLogic env schema row =
        recover (explanationSub schema row) ++
          recover (courtAddressSub "Court Address" schema row) ++
          recover (interestSub env schema row)) ∧
    (explanationSub schema row = none →
      complaintLogic env schema row =
        recover (sig1Sub env schema) ++
          recover (courtAddressSub "Court Address" schema row) ++
          recover (interestSub env schema row)) ∧
    (courtAddressSub "Court Address" schema row = none →
      complaintLogic env schema row =
        recover (sig1Sub env schema) ++ recover (explanationSub schema row) ++
          recover (interestSub env schema row)) ∧
    (interestSub env schema row = none →
      complaintLogic env schema row =
        recover (sig1Sub env schema) ++ recover (explanationSub schema row) ++
          recover (courtAddressSub "Court Address" schema row)) ∧
    (stripDollarSub "1A.1" "Rent Owed" schema row = none →
      dfcLogic env schema row =
        recover (stripDollarSub "4.7" "Monthly Rent" schema row)) ∧
    (stripDollarSub "4.7" "Monthly Rent" schema row = none →
      dfcLogic env schema row =
        recover (stripDollarSub "1A.1" "Rent Owed" schema row)) := by
  refine ⟨?_, ?_, ?_, ?_, ?_, ?_⟩ <;>
    (intro h; simp [complaintLogic, dfcLogic, h, recover])

/-- Witness for C9: on a form without the signature fields, the date-stamp
sub-action throws but the remaining complaint sub-actions still run. -/
theorem subactions_fault_isolated_witness :
    complaintLogic sampleEnv ⟨[], []⟩ [] =
      recover (explanationSub ⟨[], []⟩ []) ++
        recover (courtAddressSub "Court Address" ⟨[], []⟩ []) ++
        recover (interestSub sampleEnv ⟨[], []⟩ []) :=
  (subactions_fault_isolated sampleEnv ⟨[], []⟩ []).1 (by decide)

/-! Run-level exception semantics (claim C6). -/

theorem collectUnits_error_of_mem :
    ∀ (units : List UnitResult) (e : String), Except.error e ∈ units →
      ∃ m, collectUnits units = .error m := by
  intro units
  induction units with
  | nil => intro e h; exact absurd h (List.not_mem_nil _)
  | cons u us ih =>
    intro e h
    rcases List.mem_cons.mp h with heq | hmem
    · exact ⟨e, by rw [← heq]; rfl⟩
    · obtain ⟨m, hm⟩ := ih e hmem
      cases u with
      | error e2 => exact ⟨e2, rfl⟩
      | ok entry => exact ⟨m, by simp [collectUnits, hm]⟩

/-- C6: when any exception escapes a per-unit processing step, the whole run
aborts: the archive is never finalized or delivered (entries accumulated
before the failure are discarded) and exactly one user-facing error message
is surfaced. -/
theorem escaped_exception_aborts_run (units : List UnitResult) (e : String)
    (h : Except.error e ∈ units) :
    (runGuarded units).delivered = none ∧
    ∃ m : String, (runGuarded units).errorMsg = some m := by
  obtain ⟨m, hm⟩ := collectUnits_error_of_mem units e h
  exact ⟨by simp [runGuarded, hm], m, by simp [runGuarded, hm]⟩

/-- Witness for C6: a run whose second unit throws delivers nothing. -/
theorem escaped_exception_aborts_run_witness :
    (runGuarded [Except.ok (("a.pdf", []) : Entry), Except.error "boom"]).delivered = none :=
  (escaped_exception_aborts_run [Except.ok (("a.pdf", []) : Entry), Except.error "boom"]
    "boom" (by simp)).1

/-! The DFC "Rent Owed" post-processing (claim C7). -/

/-- C7 counterexample: for the row value "1$" the code leaves "1" in field
"1A.1" (JavaScript `replace("$", "")` removes the first dollar sign wherever
it occurs), while the value with a leading dollar sign stripped would be the
unchanged "1$". -/
theorem dfc_rent_owed_not_leading_strip :
    (applyOps emptyState (unitOps sampleEnv ⟨["1A.1"], []⟩ dfcOutput
        [("Rent Owed", "1$")])).text "1A.1" = some "1" ∧
    stripLeadingDollar "1$" = "1$" ∧ (some "1" : Option String) ≠ some "1$" := by
  refine ⟨by decide, by decide, by decide⟩

/-- C7 amended: for every row whose "Rent Owed" value is non-empty and a form
where "1A.1" is a text field, the final value of "1A.1" after the whole DFC
unit fill equals the value with its first "$" (wherever it occurs) removed;
the post-process rule runs after static mapping and overrides the raw
statically mapped value. -/
theorem dfc_rent_owed_first_dollar_removed (env : Env) (schema : FormSchema)
    (row : Row) (st : FormState) (v : String)
    (htext : schema.isText "1A.1" = true)
    (hval : rowGet row "Rent Owed" = some v) (hne : v ≠ "") :
    (applyOps st (unitOps env schema dfcOutput row)).text "1A.1" =
      some (removeFirstDollar v) := by
  have hsub1 : recover (stripDollarSub "1A.1" "Rent Owed" schema row) =
      [SetOp.setText "1A.1" (removeFirstDollar v)] := by
    unfold stripDollarSub recover
    simp [htext, hval, hne]
  have hsub2 : ∀ op ∈ recover (stripDollarSub "4.7" "Monthly Rent" schema row),
      op.fieldName ≠ "1A.1" := by
    intro op hop
    rw [(stripDollarSub_field "4.7" "Monthly Rent" schema row op hop).1]
    decide
  show (applyOps st (fillMappingOps schema row dfcOutput.fieldMapping ++
    (recover (stripDollarSub "1A.1" "Rent Owed" schema row) ++
      recover (stripDollarSub "4.7" "Monthly Rent" schema row)))).text "1A.1" =
    some (removeFirstDollar v)
  rw [applyOps_append, applyOps_append]
  rw [applyOps_text_frame _ _ hsub2]
  rw [hsub1]
  simp [applyOps, applyOp]

/-- Witness for the amended C7: "Rent Owed" of "$500" fills "1A.1" with
"500". -/
theorem dfc_rent_owed_first_dollar_removed_witness :
    (applyOps emptyState (unitOps sampleEnv ⟨["1A.1"], []⟩ dfcOutput
        [("Rent Owed", "$500")])).text "1A.1" = some (removeFirstDollar "$500") :=
  dfc_rent_owed_first_dollar_removed sampleEnv ⟨["1A.1"], []⟩
    [("Rent Owed", "$500")] emptyState "$500" (by decide) rfl (by decide)

/-! Naming policy (claim C3). -/

theorem isAlphanum_iff (c : Char) : c.isAlphanum = true ↔
    (('A' ≤ c ∧ c ≤ 'Z') ∨ ('a' ≤ c ∧ c ≤ 'z') ∨ ('0' ≤ c ∧ c ≤ '9')) := by
  simp [Char.isAlphanum, Char.isAlpha, Char.isUpper, Char.isLower, Char.isDigit,
    Bool.or_eq_true, Bool.and_eq_true, decide_eq_true_eq, ge_iff_le, Char.le_def, or_assoc]

/-- The source sanitization agrees with the sanitization as the claim words
it. -/
theorem safeFilename_eq_specSanitize (s : String) : safeFilename s = specSanitize s := by
  unfold safeFilename specSanitize
  congr 2
  apply List.map_congr_left
  intro c _
  unfold sanitizeChar
  by_cases h : (('A' ≤ c ∧ c ≤ 'Z') ∨ ('a' ≤ c ∧ c ≤ 'z') ∨ ('0' ≤ c ∧ c ≤ '9'))
  · rw [if_pos ((isAlphanum_iff c).mpr h), if_pos h]
  · rw [if_neg fun hb => h ((isAlphanum_iff c).mp hb), if_neg h]

/-- C3 counterexample: the demand-for-compliance template resolves to exactly
one document per row, yet the multi-document pipeline still appends the label
slug, producing "A_1_dfc.pdf" where the claim's formula yields "A_1.pdf". -/
theorem single_doc_template_name_has_slug :
    DFC_TEMPLATE.pdfOutputs.length = 1 ∧
    multiFilename [("Tenant", "A")] 0 dfcOutput = "A_1_dfc.pdf" ∧
    specClaimName [("Tenant", "A")] 0 DFC_TEMPLATE.pdfOutputs.length
      dfcOutput.displayName = "A_1.pdf" ∧
    ("A_1_dfc.pdf" : String) ≠ "A_1.pdf" := by
  refine ⟨rfl, by decide, by decide, by decide⟩

/-- C3 amended: the sanitization (every character outside A-Za-z0-9 becomes
an underscore, truncation to 50), the Tenant/Row_(i+1) fallback, and the
slug construction are as claimed, but the two pipelines differ from the
claimed conditional: the multi-document pipeline names every entry
`<base>_<i+1>_<slug>.pdf` regardless of how many documents the template
produces per row, while the single-document pipeline (`App.tsx`) always
names `<base>_<i+1>.pdf`. -/
theorem entry_name_formula (row : Row) (i : Nat) (o : PdfOutput) :
    multiFilename row i o =
      specSanitize (specBase row i) ++ "_" ++ natStr (i + 1) ++ "_" ++
        labelSlug o.displayName ++ ".pdf" ∧
    singleFilename row i =
      specSanitize (specBase row i) ++ "_" ++ natStr (i + 1) ++ ".pdf" := by
  constructor
  · unfold multiFilename
    rw [safeFilename_eq_specSanitize]
    rfl
  · unfold singleFilename
    rw [safeFilename_eq_specSanitize]
    rfl

/-! Archive-name uniqueness machinery (claim C4). -/

/-- Strings built as `d ++ "_" ++ a` with an underscore-free head token have
both components determined. -/
theorem underscore_token_inj : ∀ (d e a b : List Char),
    (∀ c ∈ d, c ≠ '_') → (∀ c ∈ e, c ≠ '_') →
    d ++ '_' :: a = e ++ '_' :: b → d = e ∧ a = b := by
  intro d
  induction d with
  | nil =>
    intro e a b _ he h
    cases e with
    | nil => simp only [List.nil_append, List.cons.injEq] at h; exact ⟨rfl, h.2⟩
    | cons c e2 =>
      simp only [List.nil_append, List.cons_append, List.cons.injEq] at h
      exact absurd h.1.symm (he c (List.mem_cons_self c e2))
  | cons c d2 ih =>
    intro e a b hd he h
    cases e with
    | nil =>
      simp only [List.cons_append, List.nil_append, List.cons.injEq] at h
      exact absurd h.1 (hd c (List.mem_cons_self c d2))
    | cons c2 e2 =>
      simp only [List.cons_append, List.cons.injEq] at h
      obtain ⟨h1, h2⟩ := h
      obtain ⟨hde, hab⟩ := ih e2 a b
        (fun x hx => hd x (List.mem_cons_of_mem c hx))
        (fun x hx => he x (List.mem_cons_of_mem c2 hx)) h2
      exact ⟨by rw [h1, hde], hab⟩

/-- Mirror of `underscore_token_inj` for the last underscore-separated
token. -/
theorem underscore_tail_inj (a b d e : List Char)
    (hd : ∀ c ∈ d, c ≠ '_') (he : ∀ c ∈ e, c ≠ '_')
    (h : a ++ '_' :: d = b ++ '_' :: e) : a = b ∧ d = e := by
  have hrev := congrArg List.reverse h
  simp only [List.reverse_append, List.reverse_cons, List.append_assoc,
    List.singleton_append] at hrev
  obtain ⟨h1, h2⟩ := underscore_token_inj d.reverse e.reverse a.reverse b.reverse
    (fun c hc => hd c (List.mem_reverse.mp hc))
    (fun c hc => he c (List.mem_reverse.mp hc)) hrev
  exact ⟨List.reverse_injective h2, List.reverse_injective h1⟩

/-- Two lists with concrete suffixes that disagree at some position from the
end are distinct. -/
theorem tails_sep (X Y T₁ T₂ : List Char) (k : Nat)
    (hk1 : k < T₁.length) (hk2 : k < T₂.length)
    (hne : T₁.reverse[k]? ≠ T₂.reverse[k]?) : X ++ T₁ ≠ Y ++ T₂ := by
  intro h
  have hg := congrArg (fun l => l.reverse[k]?) h
  simp only [List.reverse_append] at hg
  rw [List.getElem?_append_left (by simpa using hk1),
    List.getElem?_append_left (by simpa using hk2)] at hg
  exact hne hg

/-- Decomposition of a multi-pipeline entry name into the sanitized base and
row number, followed by the slug-and-extension suffix. -/
theorem multiFilename_data (row : Row) (i : Nat) (o : PdfOutput) :
    (multiFilename row i o).data =
      ((safeFilename (tenantBase row i)).data ++ '_' :: natChars (i + 1)) ++
        ('_' :: (labelSlug o.displayName).data ++ (".pdf").data) := by
  simp only [multiFilename, natStr, String.data_append]
  simp [List.append_assoc]

/-- Entry names with the same slug determine the row index. -/
theorem multiFilename_inj_of_same_slug (r₁ r₂ : Row) (i j : Nat) (o₁ o₂ : PdfOutput)
    (hs : labelSlug o₁.displayName = labelSlug o₂.displayName)
    (h : multiFilename r₁ i o₁ = multiFilename r₂ j o₂) : i = j := by
  have hd := congrArg String.data h
  rw [multiFilename_data, multiFilename_data, hs] at hd
  have hcancel := List.append_cancel_right hd
  obtain ⟨-, hD⟩ := underscore_tail_inj _ _ _ _
    (natChars_no_underscore (i + 1)) (natChars_no_underscore (j + 1)) hcancel
  have := natChars_inj (i + 1) (j + 1) hD
  omega

/-- Name injectivity over the eviction template's three descriptors: equal
names force equal row indices and equal display labels. -/
theorem eviction_names_inj :
    ∀ o₁ ∈ EVICTION_COMPLAINT_TEMPLATE.pdfOutputs,
    ∀ o₂ ∈ EVICTION_COMPLAINT_TEMPLATE.pdfOutputs,
    ∀ (r₁ : Row) (i : Nat) (r₂ : Row) (j : Nat),
      multiFilename r₁ i o₁ = multiFilename r₂ j o₂ →
      i = j ∧ o₁.displayName = o₂.displayName := by
  intro o₁ h₁ o₂ h₂ r₁ i r₂ j h
  simp only [EVICTION_COMPLAINT_TEMPLATE, List.mem_cons, List.not_mem_nil,
    or_false] at h₁ h₂
  have hdata := congrArg String.data h
  rw [multiFilename_data, multiFilename_data] at hdata
  rcases h₁ with rfl | rfl | rfl <;> rcases h₂ with rfl | rfl | rfl
  · exact ⟨multiFilename_inj_of_same_slug r₁ r₂ i j _ _ rfl h, rfl⟩
  · exact absurd hdata (tails_sep _ _ _ _ 4 (by decide) (by decide) (by decide))
  · exact absurd hdata (tails_sep _ _ _ _ 5 (by decide) (by decide) (by decide))
  · exact absurd hdata (tails_sep _ _ _ _ 4 (by decide) (by decide) (by decide))
  · exact ⟨multiFilename_inj_of_same_slug r₁ r₂ i j _ _ rfl h, rfl⟩
  · exact absurd hdata (tails_sep _ _ _ _ 4 (by decide) (by decide) (by decide))
  · exact absurd hdata (tails_sep _ _ _ _ 5 (by decide) (by decide) (by decide))
  · exact absurd hdata (tails_sep _ _ _ _ 4 (by decide) (by decide) (by decide))
  · exact ⟨multiFilename_inj_of_same_slug r₁ r₂ i j _ _ rfl h, rfl⟩

/-- Name injectivity over the demand-for-compliance template's single
descriptor. -/
theorem dfc_names_inj :
    ∀ o₁ ∈ DFC_TEMPLATE.pdfOutputs, ∀ o₂ ∈ DFC_TEMPLATE.pdfOutputs,
    ∀ (r₁ : Row) (i : Nat) (r₂ : Row) (j : Nat),
      multiFilename r₁ i o₁ = multiFilename r₂ j o₂ →
      i = j ∧ o₁.displayName = o₂.displayName := by
  intro o₁ h₁ o₂ h₂ r₁ i r₂ j h
  simp only [DFC_TEMPLATE, List.mem_cons, List.not_mem_nil, or_false] at h₁ h₂
  subst h₁; subst h₂
  exact ⟨multiFilename_inj_of_same_slug r₁ r₂ i j _ _ rfl h, rfl⟩

/-- Entry names produced for one row come from the listed descriptors. -/
theorem mem_processRow_names (env : Env) (files : LoadedPdfs) (row : Row) (i : Nat) :
    ∀ (os : List PdfOutput) (x : String),
      x ∈ (processRow env files row i os).map Prod.fst →
      ∃ o ∈ os, x = multiFilename row i o := by
  intro os
  induction os with
  | nil => intro x hx; exact absurd hx (List.not_mem_nil x)
  | cons o os ih =>
    intro x hx
    simp only [processRow, List.map_append, List.mem_append] at hx
    rcases hx with hx | hx
    · cases hl : files.lookup o.filename with
      | none => rw [hl] at hx; exact absurd hx (List.not_mem_nil x)
      | some schema =>
        rw [hl] at hx
        simp only [List.map_cons, List.map_nil, List.mem_singleton] at hx
        exact ⟨o, List.mem_cons_self o os, hx⟩
    · obtain ⟨o2, ho2, hx2⟩ := ih x hx
      exact ⟨o2, List.mem_cons_of_mem o ho2, hx2⟩

/-- Entry names produced from row index `i` onwards carry an index at least
`i`. -/
theorem mem_runRows_names (env : Env) (files : LoadedPdfs) (os : List PdfOutput) :
    ∀ (rows : List Row) (i : Nat) (x : String),
      x ∈ (runRows env files os i rows).map Prod.fst →
      ∃ j, i ≤ j ∧ ∃ (row : Row) (o : PdfOutput), o ∈ os ∧ x = multiFilename row j o := by
  intro rows
  induction rows with
  | nil => intro i x hx; exact absurd hx (List.not_mem_nil x)
  | cons row rest ih =>
    intro i x hx
    simp only [runRows, List.map_append, List.mem_append] at hx
    rcases hx with hx | hx
    · obtain ⟨o, ho, hxo⟩ := mem_processRow_names env files row i os x hx
      exact ⟨i, Nat.le_refl i, row, o, ho, hxo⟩
    · obtain ⟨j, hj, hrest⟩ := ih (i + 1) x hx
      exact ⟨j, by omega, hrest⟩

/-- An injectivity property for the names of a descriptor list: equal names
force equal row indices and equal display labels. -/
def NamesInj (os : List PdfOutput) : Prop :=
  ∀ o₁ ∈ os, ∀ o₂ ∈ os, ∀ (r₁ : Row) (i : Nat) (r₂ : Row) (j : Nat),
    multiFilename r₁ i o₁ = multiFilename r₂ j o₂ →
    i = j ∧ o₁.displayName = o₂.displayName

/-- For a descriptor list with injective naming and pairwise-distinct display
labels, the names of one row's entries are pairwise distinct. -/
theorem processRow_names_nodup (env : Env) (files : LoadedPdfs) (row : Row) (i : Nat) :
    ∀ os : List PdfOutput, NamesInj os →
      os.Pairwise (fun a b => a.displayName ≠ b.displayName) →
      ((processRow env files row i os).map Prod.fst).Nodup := by
  intro os
  induction os with
  | nil => intro _ _; simp [processRow]
  | cons o os ih =>
    intro hinj hpw
    have hpw2 := (List.pairwise_cons.mp hpw).2
    have hpwHead := (List.pairwise_cons.mp hpw).1
    have hinj2 : NamesInj os := fun o₁ h₁ o₂ h₂ =>
      hinj o₁ (List.mem_cons_of_mem o h₁) o₂ (List.mem_cons_of_mem o h₂)
    simp only [processRow, List.map_append]
    rw [List.nodup_append]
    refine ⟨?_, ih hinj2 hpw2, ?_⟩
    · cases hl : files.lookup o.filename with
      | none => simp
      | some schema => simp
    · intro x hx hx2
      cases hl : files.lookup o.filename with
      | none => rw [hl] at hx; exact absurd hx (List.not_mem_nil x)
      | some schema =>
        rw [hl] at hx
        simp only [List.map_cons, List.map_nil, List.mem_singleton] at hx
        obtain ⟨o2, ho2, hxo2⟩ := mem_processRow_names env files row i os x hx2
        rw [hx] at hxo2
        have := hinj o (List.mem_cons_self o os) o2 (List.mem_cons_of_mem o ho2)
          row i row i hxo2
        exact hpwHead o2 ho2 this.2

/-- For a descriptor list with injective naming and pairwise-distinct display
labels, all names produced by the whole run are pairwise distinct. -/
theorem runRows_names_nodup (env : Env) (files : LoadedPdfs) (os : List PdfOutput)
    (hinj : NamesInj os)
    (hpw : os.Pairwise (fun a b => a.displayName ≠ b.displayName)) :
    ∀ (rows : List Row) (i : Nat),
      ((runRows env files os i rows).map Prod.fst).Nodup := by
  intro rows
  induction rows with
  | nil => intro i; simp [runRows]
  | cons row rest ih =>
    intro i
    simp only [runRows, List.map_append]
    rw [List.nodup_append]
    refine ⟨processRow_names_nodup env files row i os hinj hpw, ih (i + 1), ?_⟩
    intro x hx hx2
    obtain ⟨o, ho, hxo⟩ := mem_processRow_names env files row i os x hx
    obtain ⟨j, hj, row2, o2, ho2, hxo2⟩ := mem_runRows_names env files os rest (i + 1) x hx2
    rw [hxo] at hxo2
    have := (hinj o ho o2 ho2 row i row2 j hxo2).1
    omega

/-- Entry count for one row: one entry per descriptor whose template file is
loaded. -/
theorem processRow_length (env : Env) (files : LoadedPdfs) (row : Row) (i : Nat) :
    ∀ os : List PdfOutput,
      (processRow env files row i os).length =
        (os.filter fun o => (files.lookup o.filename).isSome).length := by
  intro os
  induction os with
  | nil => rfl
  | cons o os ih =>
    simp only [processRow, List.length_append, List.filter_cons]
    cases hl : files.lookup o.filename with
    | none => simpa using ih
    | some schema =>
      simp only [hl, Option.isSome_some, if_true, List.length_cons,
        List.length_append, List.length_nil]
      omega

/-- Entry count for a whole run. -/
theorem runRows_length (env : Env) (files : LoadedPdfs) (os : List PdfOutput) :
    ∀ (rows : List Row) (i : Nat),
      (runRows env files os i rows).length =
        rows.length * (os.filter fun o => (files.lookup o.filename).isSome).length := by
  intro rows
  induction rows with
  | nil => intro i; simp [runRows]
  | cons row rest ih =>
    intro i
    simp only [runRows, List.length_append, List.length_cons]
    rw [processRow_length, ih (i + 1)]
    ring

/-- C4: for each template of the registry, a run over N rows in which every
descriptor's template file is loaded (which the loader guarantees before a
run can start) adds exactly N times K entries to the archive, and all entry
names are pairwise distinct; the registry's display labels are distinct
within each template. -/
theorem run_produces_NK_distinct_entries :
    ∀ tmpl ∈ TEMPLATES, ∀ (env : Env) (files : LoadedPdfs) (rows : List Row),
      (∀ o ∈ tmpl.pdfOutputs, (files.lookup o.filename).isSome = true) →
      (runBatch env files tmpl rows).length = rows.length * tmpl.pdfOutputs.length ∧
      ((runBatch env files tmpl rows).map Prod.fst).Nodup := by
  intro tmpl htmpl env files rows hall
  constructor
  · rw [runBatch, runRows_length, List.filter_eq_self.mpr hall]
  · rw [runBatch]
    simp only [TEMPLATES, List.mem_cons, List.not_mem_nil, or_false] at htmpl
    rcases htmpl with rfl | rfl
    · exact runRows_names_nodup env files _ eviction_names_inj
        (by simp [EVICTION_COMPLAINT_TEMPLATE, complaintOutput, summonsOutput,
          caresOutput, List.pairwise_cons]) rows 0
    · exact runRows_names_nodup env files _ dfc_names_inj
        (by simp [DFC_TEMPLATE, List.pairwise_cons]) rows 0

/-- Witness for C4: one row and the fully loaded eviction template yield
three distinctly named entries. -/
theorem run_produces_NK_distinct_entries_witness :
    (runBatch sampleEnv
        [("jdf_101_v1.pdf", ⟨[], []⟩), ("jdf_102_v1.pdf", ⟨[], []⟩),
         ("cares_affidavit_v1.pdf", ⟨[], []⟩)]
        EVICTION_COMPLAINT_TEMPLATE [[("Tenant", "T")]]).length =
      ([[("Tenant", "T")]] : List Row).length *
        EVICTION_COMPLAINT_TEMPLATE.pdfOutputs.length ∧
    ((runBatch sampleEnv
        [("jdf_101_v1.pdf", ⟨[], []⟩), ("jdf_102_v1.pdf", ⟨[], []⟩),
         ("cares_affidavit_v1.pdf", ⟨[], []⟩)]
        EVICTION_COMPLAINT_TEMPLATE [[("Tenant", "T")]]).map Prod.fst).Nodup :=
  run_produces_NK_distinct_entries EVICTION_COMPLAINT_TEMPLATE
    (by simp [TEMPLATES]) sampleEnv
    [("jdf_101_v1.pdf", ⟨[], []⟩), ("jdf_102_v1.pdf", ⟨[], []⟩),
     ("cares_affidavit_v1.pdf", ⟨[], []⟩)]
    [[("Tenant", "T")]] (by decide)

/-! Missing-template-file skipping (claim C10). -/

/-- C10: the multi-document pipeline silently skips every (row, descriptor)
unit whose template file is absent from the loaded map: the run still
completes normally with one entry per present descriptor per row, and when
some descriptor's file is missing a non-empty run produces strictly fewer
than N times K entries. -/
theorem missing_file_skips_unit (env : Env) (files : LoadedPdfs)
    (tmpl : TemplateConfig) (rows : List Row) :
    (runBatch env files tmpl rows).length =
      rows.length * (tmpl.pdfOutputs.filter
        fun o => (files.lookup o.filename).isSome).length ∧
    (∀ o ∈ tmpl.pdfOutputs, files.lookup o.filename = none → 0 < rows.length →
      (runBatch env files tmpl rows).length <
        rows.length * tmpl.pdfOutputs.length) := by
  constructor
  · exact runRows_length env files tmpl.pdfOutputs rows 0
  · intro o ho hnone hrows
    rw [runBatch, runRows_length]
    have hlt : (tmpl.pdfOutputs.filter
        fun o => (files.lookup o.filename).isSome).length < tmpl.pdfOutputs.length := by
      by_contra hge
      have hle := List.length_filter_le
        (fun o => (files.lookup o.filename).isSome) tmpl.pdfOutputs
      have heq : (tmpl.pdfOutputs.filter
          fun o => (files.lookup o.filename).isSome).length = tmpl.pdfOutputs.length := by
        omega
      have hall := List.filter_length_eq_length.mp heq
      have := hall o ho
      rw [hnone] at this
      simp at this
    exact (Nat.mul_lt_mul_left hrows).mpr hlt

/-- Witness for C10: with the CARES affidavit file missing, a one-row
eviction run completes with 2 entries instead of 3. -/
theorem missing_file_skips_unit_witness :
    (runBatch sampleEnv
        [("jdf_101_v1.pdf", ⟨[], []⟩), ("jdf_102_v1.pdf", ⟨[], []⟩)]
        EVICTION_COMPLAINT_TEMPLATE [[("Tenant", "T")]]).length <
      ([[("Tenant", "T")]] : List Row).length *
        EVICTION_COMPLAINT_TEMPLATE.pdfOutputs.length :=
  (missing_file_skips_unit sampleEnv
      [("jdf_101_v1.pdf", ⟨[], []⟩), ("jdf_102_v1.pdf", ⟨[], []⟩)]
      EVICTION_COMPLAINT_TEMPLATE [[("Tenant", "T")]]).2
    caresOutput (by simp [EVICTION_COMPLAINT_TEMPLATE]) (by decide) (by decide)

/-! Determinism across runs (claim C5). -/

/-- Entry names do not depend on the ambient environment. -/
theorem processRow_names_env_indep (env₁ env₂ : Env) (files : LoadedPdfs)
    (row : Row) (i : Nat) :
    ∀ os : List PdfOutput,
      (processRow env₁ files row i os).map Prod.fst =
        (processRow env₂ files row i os).map Prod.fst := by
  intro os
  induction os with
  | nil => rfl
  | cons o os ih =>
    simp only [processRow, List.map_append]
    rw [ih]
    cases hl : files.lookup o.filename with
    | none => rfl
    | some schema => rfl

theorem runRows_names_env_indep (env₁ env₂ : Env) (files : LoadedPdfs)
    (os : List PdfOutput) :
    ∀ (rows : List Row) (i : Nat),
      (runRows env₁ files os i rows).map Prod.fst =
        (runRows env₂ files os i rows).map Prod.fst := by
  intro rows
  induction rows with
  | nil => intro i; rfl
  | cons row rest ih =>
    intro i
    simp only [runRows, List.map_append]
    rw [ih (i + 1), processRow_names_env_indep env₁ env₂ files row i os]

/-- C5 counterexample: with a fixed template, fixed rows and fixed loaded
files, two runs under wall-clock dates one day apart produce different
archive contents — the complaint document's stamped signature date differs —
so the produced archives are not byte-exact across runs even though only the
archive name was allowed to differ. -/
theorem run_not_date_independent :
    runBatch sampleEnv
        [("jdf_101_v1.pdf", ⟨["Sig1_Date", "Sig1_Month", "Sig1_Year"], []⟩)]
        EVICTION_COMPLAINT_TEMPLATE [[("Tenant", "T")]] ≠
      runBatch sampleEnv2
        [("jdf_101_v1.pdf", ⟨["Sig1_Date", "Sig1_Month", "Sig1_Year"], []⟩)]
        EVICTION_COMPLAINT_TEMPLATE [[("Tenant", "T")]] := by
  decide

/-- C5 amended: for a fixed template, row sequence and loaded files, the set
of entry names is identical across runs regardless of the ambient clock and
formatting environment, and for the demand-for-compliance template (whose
custom logic uses no environment input) the full archive contents are
identical; the eviction template's entry contents are only reproducible with
the clock fixed, because its custom logic stamps the current date into the
documents. -/
theorem archive_deterministic_modulo_date (env₁ env₂ : Env) (files : LoadedPdfs)
    (tmpl : TemplateConfig) (rows : List Row) :
    (runBatch env₁ files tmpl rows).map Prod.fst =
      (runBatch env₂ files tmpl rows).map Prod.fst ∧
    runBatch env₁ files DFC_TEMPLATE rows = runBatch env₂ files DFC_TEMPLATE rows := by
  constructor
  · exact runRows_names_env_indep env₁ env₂ files tmpl.pdfOutputs rows 0
  · show runRows env₁ files [dfcOutput] 0 rows = runRows env₂ files [dfcOutput] 0 rows
    suffices h : ∀ (rows2 : List Row) (i : Nat),
        runRows env₁ files [dfcOutput] i rows2 = runRows env₂ files [dfcOutput] i rows2
      from h rows 0
    intro rows2
    induction rows2 with
    | nil => intro i; rfl
    | cons row rest ih =>
      intro i
      simp only [runRows]
      rw [ih (i + 1)]
      rfl

end PdfFill
